import Mathlib

/-!
Verification development for the scripted-render-pipeline repository.

Each section of this file shallowly embeds one part of the python source
(`scripted_render_pipeline`) as executable Lean definitions and proves the
spec claims about them.  Machine integers are modelled as `Nat`/`Int` with
explicit reduction modulo `2 ^ 16` where numpy casts matter; float arithmetic
on image data is idealised as exact rational arithmetic `ℚ`; fallible code
returns `Except String`; dictionaries are association lists with
insertion-order semantics mirroring CPython dicts.
-/

namespace ScriptedRenderPipeline

/-! ## postcorrector/post_corrector.py -/

/-- `RESTORE_MEAN_LEVEL = 32768` (post_corrector.py line 24). -/
def RESTORE_MEAN_LEVEL : Nat := 32768

/-- `MIN_CLEAN = 20` (post_corrector.py line 26). -/
def MIN_CLEAN : Nat := 20

/-- default of the `a` parameter of `Post_Corrector.__init__` (line 48). -/
def INIT_DEFAULT_A : ℚ := 1

/-- default of the `a` parameter of `Post_Corrector.has_artefact` (line 200). -/
def HAS_ARTEFACT_DEFAULT_A : ℚ := 3

/-- truncation toward zero, the rounding used by a C-style float-to-integer
cast: `float(v)` to int drops the fractional part. -/
def ratTrunc (q : ℚ) : Int :=
  if 0 ≤ q then ⌊q⌋ else ⌈q⌉

/-- numpy `astype(np.uint16)` applied to a float64 value: truncate toward
zero, then reduce modulo `2 ^ 16` (two's-complement wrap-around; no
clamping happens). -/
def astypeUint16 (q : ℚ) : Nat :=
  ((ratTrunc q) % 65536).toNat

/-- one pixel of `Post_Corrector.post_correct` lines 257-259 (and the
identical formula in `post_correct_failed_section` lines 316-318):
`(image - background + RESTORE_MEAN_LEVEL).astype(np.uint16)`.
`raw` is a uint16 pixel of the raw image, `bg` the (float) background
pixel. -/
def post_correct_pixel (raw : Nat) (bg : ℚ) : Nat :=
  astypeUint16 ((raw : ℚ) - bg + (RESTORE_MEAN_LEVEL : ℚ))

/-- Modelled from the spec: the per-pixel formula the spec asserts for the
post-corrected output, `max(0, min(65535, raw − background + RESTORE_MEAN_LEVEL))`,
a clamp into the 16-bit range. -/
def spec_clamp_pixel (raw : Nat) (bg : ℚ) : Int :=
  max 0 (min 65535 (ratTrunc ((raw : ℚ) - bg + (RESTORE_MEAN_LEVEL : ℚ))))

/-- `Post_Corrector.has_artefact` (post_corrector.py lines 200-217).  The
image enters only through its `pct`-percentile `p1`, so the image argument
is abstracted by that percentile value. -/
def has_artefact (p1 med mad a : ℚ) : Bool :=
  decide (p1 < med - a * mad) || decide (p1 > med + a * mad)

/-- `Post_Corrector.post_correct_section` (lines 133-158), with each raw
image abstracted by its `pct`-percentile and the section directory by
`parent` (the value `filepaths[0].parent` returned for a failed section).
Returns the list of failed section paths contributed by this section:
empty when the section is corrected, `[parent]` when it is marked failed.
The correction itself (`post_correct`) is modelled separately by
`post_correct_pixel`. -/
def post_correct_section (parent : String) (percentiles : List ℚ)
    (med mad a : ℚ) : List String :=
  let fps_clean := percentiles.filter (fun p => ! has_artefact p med mad a)
  if fps_clean.length > MIN_CLEAN then [] else [parent]

/-- flattening of `itertools.zip_longest(lower, higher)` with the `None`
padding entries dropped, as done in `post_correct_failed_section`
lines 297-298. -/
def interleavePad {α : Type} : List α → List α → List α
  | [], l2 => l2
  | a :: as1, [] => a :: as1
  | a :: as1, b :: bs => a :: b :: interleavePad as1 bs

/-- the `for dir in paths_2_search` loop of `post_correct_failed_section`
(lines 301-308): return the first available background, `none` when every
lookup raises `FileNotFoundError`. -/
def findBackground (search : List String) (bg : String → Option ℚ) : Option ℚ :=
  match search with
  | [] => none
  | p :: rest =>
    match bg p with
    | some b => some b
    | none => findBackground rest bg

/-- `Post_Corrector.post_correct_failed_section` (lines 272-329).
`projectPaths` is `self.project_paths`, `sectionDir` the failed section's
directory, `bg p` the background stored in section `p`'s postcorrection
directory (or `none` when `sum_of_files.tiff` is absent there), `raws` the
pixels of the section's raw images.  Returns the corrected pixels, or an
error: `ValueError` for `list.index` failing, and — when no searched
neighbour has a background — the `NameError` CPython raises at line 317
because the local variable `background` was never bound. -/
def post_correct_failed_section (projectPaths : List String)
    (sectionDir : String) (bg : String → Option ℚ) (raws : List Nat) :
    Except String (List Nat) :=
  if sectionDir ∈ projectPaths then
    let s_i := projectPaths.indexOf sectionDir
    let lower := (projectPaths.take s_i).reverse
    let higher := projectPaths.drop (s_i + 1)
    let paths_2_search := interleavePad lower higher
    match findBackground paths_2_search bg with
    | none => .error "NameError: name background is not defined"
    | some background => .ok (raws.map (fun r => post_correct_pixel r background))
  else
    .error "ValueError: section_dir is not in project_paths"

/-! ## importer/render_specs.py -/

/-- python `str.zfill`: left-pad with zeros up to `width` (never truncates). -/
def zfill (width : Nat) (s : String) : String :=
  String.mk (List.replicate (width - s.length) '0' ++ s.toList)

/-- `Section.set_tileids` (render_specs.py lines 172-183).  A tile is
identified by its acquisition time (the key of
`tiles_by_acquisitiontime`), modelled as a `Nat` since only the total
order of timestamps matters.  `reversed(sorted(keys))` is the descending
sort; `enumerate` pairs each time with its sequential index, and the
tileId is the python f-string `{sequential_id}_{self.name}_{self.zvalue}`
with `sequential_id = str(i).zfill(width)` and
`width = len(str(len(self.tiles_by_acquisitiontime)))`.
Returns the `(acquisition_time, tileId)` pairs. -/
def set_tileids (times : List Nat) (name : String) (z : Nat) :
    List (Nat × String) :=
  let width := (toString times.length).length
  let gen := (List.insertionSort (fun a b : Nat => a ≤ b) times).reverse
  gen.enum.map (fun p =>
    (p.2, zfill width (toString p.1) ++ "_" ++ name ++ "_" ++ toString z))

/-- the data of one `Tile` that `Section.add_tile` inspects:
`acquisition_time` (modelled as `Nat`, only equality matters here) and
`spec.layout.pixelsize` (a python float, modelled as `ℚ`).  The remaining
fields (axes, intensities) never influence control flow in `add_tile`. -/
structure TileR where
  time : Nat
  px : ℚ

/-- the `Section` state that `add_tile` reads and writes: the keys of
`tiles_by_acquisitiontime` in insertion order and `self.pixel_size`
(`none` models python `None`). -/
structure SectionR where
  times : List Nat
  pixel_size : Option ℚ

/-- a fresh section as built by `Section.__init__` with no tiles. -/
def emptySection : SectionR := { times := [], pixel_size := none }

/-- `Section.add_tile` (render_specs.py lines 130-157).  The pixel-size
guard is python `if self.pixel_size and pixel_size != self.pixel_size`:
the first conjunct is TRUTHINESS, so it is false both when
`self.pixel_size is None` and when it is the float `0.0`; in either case
the `else` branch overwrites `self.pixel_size` with the new value. -/
def add_tile (s : SectionR) (t : TileR) : Except String SectionR :=
  if t.time ∈ s.times then
    .error "ValueError: already has a spec"
  else
    match s.pixel_size with
    | some p =>
      if p ≠ 0 ∧ t.px ≠ p then
        .error "ValueError: wrong pixel_size"
      else
        .ok { times := s.times ++ [t.time], pixel_size := some t.px }
    | none => .ok { times := s.times ++ [t.time], pixel_size := some t.px }

/-- repeated `add_tile`, as the ingest adaptors do when they populate a
section tile by tile. -/
def add_tiles (s : SectionR) (ts : List TileR) : Except String SectionR :=
  ts.foldlM add_tile s

/-! ## stitch/get_match_tiles.py -/

/-- the render tile bounds consumed by `get_match_tiles`: corner
coordinates (python floats, modelled as `ℚ`) plus identifiers. -/
structure TileB where
  min_x : ℚ
  min_y : ℚ
  max_x : ℚ
  max_y : ℚ
  tile_id : String
  section_id : String

/-- one match tuple `(tile_id, matched, x, y, section_id)`. -/
abbrev MatchT := String × String × ℚ × ℚ × String

/-- the size-uniformity loop of `get_match_tiles` (lines 73-84): the first
tile fixes `size = max_x - min_x`; any tile whose x- or y-extent differs
raises. -/
def size_check : Option ℚ → List TileB → Except String (Option ℚ)
  | size, [] => .ok size
  | size, t :: rest =>
    let s := match size with
      | none => t.max_x - t.min_x
      | some s => s
    if t.max_x - t.min_x ≠ s ∨ t.max_y - t.min_y ≠ s then
      .error "tile is not the right size"
    else
      size_check (some s) rest

/-- inner-dict assignment `x_dict[x][y] = tile_id` (value overwrite keeps
the key position, like a CPython dict). -/
def innerSet (l : List (ℚ × String)) (y : ℚ) (tid : String) :
    List (ℚ × String) :=
  match l with
  | [] => [(y, tid)]
  | (y2, t2) :: rest =>
    if y2 = y then (y, tid) :: rest else (y2, t2) :: innerSet rest y tid

/-- inner-dict lookup. -/
def innerGet (l : List (ℚ × String)) (y : ℚ) : Option String :=
  match l with
  | [] => none
  | (y2, t2) :: rest => if y2 = y then some t2 else innerGet rest y

/-- outer-dict assignment for the defaultdict `x_dict` (line 87-89). -/
def dictSet (d : List (ℚ × List (ℚ × String))) (x y : ℚ) (tid : String) :
    List (ℚ × List (ℚ × String)) :=
  match d with
  | [] => [(x, [(y, tid)])]
  | (x2, yd) :: rest =>
    if x2 = x then (x, innerSet yd y tid) :: rest
    else (x2, yd) :: dictSet rest x y tid

/-- outer-dict lookup. -/
def dictGet (d : List (ℚ × List (ℚ × String))) (x : ℚ) :
    Option (List (ℚ × String)) :=
  match d with
  | [] => none
  | (x2, yd) :: rest => if x2 = x then some yd else dictGet rest x

/-- `x_dict` built from the tile bounds, indexed by top-left corner
(lines 86-89). -/
def build_x_dict (bounds : List TileB) : List (ℚ × List (ℚ × String)) :=
  bounds.foldl (fun d t => dictSet d t.min_x t.min_y t.tile_id) []

/-- `ylen`: the running maximum of the inner dict sizes (lines 92-94). -/
def ylenOf (d : List (ℚ × List (ℚ × String))) : Nat :=
  d.foldl (fun m kv => max m kv.2.length) 0

/-- the x-direction matching loop (lines 96-111): looks up each tile's
`(max_x, min_y)` corner; returns `(x_matches, x_unmatched)`. -/
def x_scan (d : List (ℚ × List (ℚ × String))) (bounds : List TileB) :
    List MatchT × Nat :=
  bounds.foldl (fun acc t =>
    match dictGet d t.max_x with
    | none => (acc.1, acc.2 + 1)
    | some yd =>
      match innerGet yd t.min_y with
      | none => (acc.1, acc.2 + 1)
      | some m =>
        (acc.1 ++ [(t.tile_id, m, t.max_x, t.min_y, t.section_id)], acc.2))
    ([], 0)

/-- the y-direction matching loop (lines 130-142): `assert x in x_dict`
becomes an error on failure; looks up each tile's `(min_x, max_y)`
corner; returns `(y_matches, y_unmatched)`. -/
def y_scan (d : List (ℚ × List (ℚ × String))) (bounds : List TileB) :
    Except String (List MatchT × Nat) :=
  bounds.foldlM (fun acc t =>
    match dictGet d t.min_x with
    | none => .error "AssertionError"
    | some yd =>
      match innerGet yd t.max_y with
      | none => .ok (acc.1, acc.2 + 1)
      | some m =>
        .ok (acc.1 ++ [(t.tile_id, m, t.min_x, t.max_y, t.section_id)], acc.2))
    ([], 0)

/-- `get_match_tiles` for a single z level (lines 67-164).  The
`x_unmatched > ylen` and `y_unmatched > xlen` branches only log "is not a
rectangle" and keep going; the fatal branches are `x_unmatched < ylen`
and `y_unmatched < xlen` ("somehow matched more tiles than possible"). -/
def get_match_tiles_z (bounds : List TileB) :
    Except String (List MatchT × List MatchT) :=
  match size_check none bounds with
  | .error e => .error e
  | .ok _ =>
    let d := build_x_dict bounds
    let xlen := d.length
    let ylen := ylenOf d
    let xres := x_scan d bounds
    if xres.1 = [] then .error "could not find any matches"
    else if xres.2 < ylen then
      .error "somehow matched more tiles than possible"
    else
      match y_scan d bounds with
      | .error e => .error e
      | .ok yres =>
        if yres.1 = [] then .error "could not find any matches"
        else if yres.2 < xlen then
          .error "somehow matched more tiles than possible"
        else .ok (xres.1, yres.1)

/-! ## stitch/stitch.py -/

/-- the part of a pointmatch record that `filter_tilespecs` reads. -/
structure PMatch where
  pId : String
  qId : String
deriving DecidableEq

/-- adjacency lists: the per-z `z_connections[zlevel]` defaultdict. -/
abbrev AdjT := List (String × List String)

/-- defaultdict append `connections[k].append(v)`. -/
def dictAppend (d : AdjT) (k v : String) : AdjT :=
  match d with
  | [] => [(k, [v])]
  | (k2, l) :: rest =>
    if k2 = k then (k, l ++ [v]) :: rest else (k2, l) :: dictAppend rest k v

/-- `z_connections` built in `get_all_matches` (stitch.py lines 128-130):
each accepted pointmatch adds both directed entries. -/
def build_connections (ms : List PMatch) : AdjT :=
  ms.foldl (fun d m => dictAppend (dictAppend d m.pId m.qId) m.qId m.pId) []

/-- the keys of an adjacency dict. -/
def adjKeys (d : AdjT) : List String := d.map Prod.fst

/-- `level_connections.pop(name)`: the value and the remaining dict. -/
def popKey (d : AdjT) (k : String) : List String × AdjT :=
  match d with
  | [] => ([], [])
  | (k2, l) :: rest =>
    if k2 = k then (l, rest)
    else
      let r := popKey rest k
      (r.1, (k2, l) :: r.2)

/-- the inner `for item in level_connections.pop(name)` loop of
`filter_tilespecs` (lines 168-170): push each adjacent item onto the
`checking` stack unless it is already connected or queued.  The stack is
kept top-first, so this matches python's append-to-end/pop-from-end. -/
def pushItems (connected : List String) : List String → List String → List String
  | checking, [] => checking
  | checking, item :: adj =>
    pushItems connected
      (if item ∈ connected ∨ item ∈ checking then checking else item :: checking)
      adj

/-- weight of an adjacency dict: entries plus total adjacency length;
an upper bound on the work left for `exploreF`. -/
def adjWeight (d : AdjT) : Nat :=
  d.foldl (fun n kv => n + 1 + kv.2.length) 0

/-- the inner `while checking` loop of `filter_tilespecs` (lines 163-170),
fuelled: every iteration pops one name off `checking`, adds it to the
`connected` set and pushes its (not yet seen) neighbours.  The fuel used
by `explore` below always suffices, since each iteration either consumes
a dict entry together with its adjacency list or shortens `checking`.
When the popped name is no dict key, CPython would raise `KeyError`; for
the symmetric adjacency built by `build_connections` every queued
neighbour is an unpopped key, so that branch is unreachable and is
modelled as skipping. -/
def exploreF : Nat → AdjT → List String → List String → List String × AdjT
  | 0, d, connected, _ => (connected, d)
  | fuel + 1, d, connected, checking =>
    match checking with
    | [] => (connected, d)
    | name :: rest =>
      let connected2 := connected.insert name
      if name ∈ adjKeys d then
        let r := popKey d name
        exploreF fuel r.2 connected2 (pushItems connected2 rest r.1)
      else
        exploreF fuel d connected2 rest

/-- one run of the inner while loop, with sufficient fuel. -/
def explore (d : AdjT) (connected checking : List String) :
    List String × AdjT :=
  exploreF (adjWeight d + checking.length + 1) d connected checking

/-- the outer `while level_connections` loop (lines 162-172), fuelled by
the dict size: each iteration seeds a traversal from the first remaining
key (`next(iter(level_connections))`) and collects one `connected` group.
`d.length` fuel always suffices because the seed key is popped in the
first step of its traversal. -/
def findGroupsF : Nat → AdjT → List (List String)
  | 0, _ => []
  | fuel + 1, d =>
    match d with
    | [] => []
    | (k, l) :: rest =>
      let r := explore ((k, l) :: rest) [] [k]
      r.1 :: findGroupsF fuel r.2

/-- all groups found by the component traversal. -/
def findGroups (d : AdjT) : List (List String) :=
  findGroupsF d.length d

/-- the `largest`/`largest_group` selection loop (lines 174-178): keep the
first group of maximal size (strictly larger replaces). -/
def pick_largest (groups : List (List String)) : List String :=
  groups.foldl (fun best g => if best.length < g.length then g else best) []

/-- `Stitcher.filter_tilespecs` for one z level (lines 159-187): returns
the tile ids whose tilespecs are kept (the largest connected group) and
the pointmatches to send (those touching the largest group). -/
def filter_tilespecs_z (ms : List PMatch) : List String × List PMatch :=
  let connections := build_connections ms
  let groups := findGroups connections
  let largest_group := pick_largest groups
  (largest_group,
   ms.filter (fun d => d.pId ∈ largest_group ∨ d.qId ∈ largest_group))

/-- the undirected match-graph edge relation: two tiles are adjacent when
some accepted pointmatch joins them. -/
def edgeRel (ms : List PMatch) (u v : String) : Prop :=
  ∃ m ∈ ms, (m.pId = u ∧ m.qId = v) ∨ (m.pId = v ∧ m.qId = u)

/-- reachability in the undirected match graph. -/
def matchReach (ms : List PMatch) : String → String → Prop :=
  Relation.ReflTransGen (edgeRel ms)

/-- the edge relation of an adjacency dict (used only in proofs). -/
def adjRel (d : AdjT) (u v : String) : Prop :=
  ∃ l, (u, l) ∈ d ∧ v ∈ l

/-! ## stitch/match.py -/

/-- a downloaded seam image: rows of pixels, each pixel a list of channel
values (the render tile-image GET yields three channels). -/
abbrev Image3 := List (List (List ℚ))

/-- numpy channel indexing `[..., 0]`: the FIRST channel. -/
def chan0 (px : List ℚ) : ℚ := px.headD 0

/-- the channel-0 plane of an image. -/
def chan0Plane (img : Image3) : List (List ℚ) :=
  img.map (fun row => row.map chan0)

/-- Modelled from the spec: channel index 1, the green channel of an RGB
response, which the spec says the grayscale is taken from. -/
def greenChan (px : List ℚ) : ℚ := (px.drop 1).headD 0

/-- `Matcher.get_images` slicing for a horizontal seam (match.py
line 108): `img[:, : overlap, 0]` and `img[:, overlap :, 0]`. -/
def get_images_h (overlap : Nat) (img : Image3) :
    List (List ℚ) × List (List ℚ) :=
  (img.map (fun row => (row.take overlap).map chan0),
   img.map (fun row => (row.drop overlap).map chan0))

/-- `Matcher.get_images` slicing for a vertical seam (match.py line 110):
`img[: overlap, :, 0]` and `img[overlap :, :, 0]`. -/
def get_images_v (overlap : Nat) (img : Image3) :
    List (List ℚ) × List (List ℚ) :=
  ((img.take overlap).map (fun row => row.map chan0),
   (img.drop overlap).map (fun row => row.map chan0))

/-- Modelled from the spec: the horizontal-seam halves taken from the
green channel, as the spec asserts. -/
def spec_green_images_h (overlap : Nat) (img : Image3) :
    List (List ℚ) × List (List ℚ) :=
  (img.map (fun row => (row.take overlap).map greenChan),
   img.map (fun row => (row.drop overlap).map greenChan))

/-- a SIFT keypoint: coordinates and sigma (`zip(sift.keypoints,
sift.sigmas)`). -/
abbrev KP := Nat × Nat × ℚ

/-- the bin of a keypoint: `(x_coord // overlap, y_coord // overlap)`
(match.py line 140). -/
def binKey (overlap : Nat) (k : KP) : Nat × Nat :=
  (k.1 / overlap, k.2.1 / overlap)

/-- append `(sigma, i)` to the pool of a bin, creating the bin on first
use (defaultdict). -/
def binsAdd (bs : List ((Nat × Nat) × List (ℚ × Nat))) (key : Nat × Nat)
    (v : ℚ × Nat) : List ((Nat × Nat) × List (ℚ × Nat)) :=
  match bs with
  | [] => [(key, [v])]
  | (k2, l) :: rest =>
    if k2 = key then (key, l ++ [v]) :: rest else (k2, l) :: binsAdd rest key v

/-- the `pool` structure of `Matcher.filter_keypoints` (lines 137-142),
flattened over both dict levels: each occupied `overlap × overlap` bin
with its `(sigma, index)` entries. -/
def binsOf (overlap : Nat) (kps : List KP) :
    List ((Nat × Nat) × List (ℚ × Nat)) :=
  kps.enum.foldl (fun bs p => binsAdd bs (binKey overlap p.2) (p.2.2.2, p.1)) []

/-- python tuple comparison used by `y_pool.sort()` on `(sigma, index)`. -/
def lexLE (a b : ℚ × Nat) : Prop :=
  a.1 < b.1 ∨ (a.1 = b.1 ∧ a.2 ≤ b.2)

instance : DecidableRel lexLE := fun a b => by
  unfold lexLE
  exact inferInstance

/-- `Matcher.filter_keypoints` (match.py lines 131-152): the per-bin quota
is `max_keypoints // total_pools` (integer division); each bin keeps its
quota of smallest `(sigma, index)` entries; all other keypoints are
dropped.  Returns the boolean `keep` mask. -/
def filter_keypoints (maxKeypoints overlap : Nat) (kps : List KP) :
    List Bool :=
  let pool := binsOf overlap kps
  let total_pools := pool.length
  let kp_per_pool := maxKeypoints / total_pools
  let keepIdx := pool.foldl
    (fun acc b => acc ++ (List.insertionSort lexLE b.2).take kp_per_pool) []
  (List.range kps.length).map (fun i => decide (∃ p ∈ keepIdx, p.2 = i))

/-- the guard of `Matcher.make_pointmatches` right after filtering
(match.py lines 175-183): when the keep mask of either half has no `True`
left, the matcher logs and returns the empty dict `{}` — no pointmatch is
produced for the pair. -/
def make_pointmatches_keep (maxKeypoints overlap : Nat) (kps : List KP) :
    Option (List Bool) :=
  let keep := filter_keypoints maxKeypoints overlap kps
  if keep.any id then some keep else none

/-- `self.max_keypoints` default set by `Stitcher.__init__`
(stitch.py line 51). -/
def stitcherMaxKeypoints : Nat := 400

/-- `self.overlap` default set by `Stitcher.__init__` (stitch.py line 49). -/
def stitcherOverlap : Nat := 400

/-! ## importer/fastem_mipmapper.py -/

/-- character lists, the form in which we parse positions.txt lines. -/
abbrev Chars := List Char

/-- the regex character class `\d` (ASCII digits; positions.txt data). -/
def isDigitChar (c : Char) : Bool := c.isDigit

/-- regex `\d{n}`: exactly `n` digits. -/
def expectDigits (n : Nat) (cs : Chars) : Option (Chars × Chars) :=
  let ds := cs.take n
  if ds.length = n ∧ ds.all isDigitChar then some (ds, cs.drop n) else none

/-- a literal character. -/
def expectChar (c : Char) (cs : Chars) : Option Chars :=
  match cs with
  | [] => none
  | c2 :: rest => if c2 = c then some rest else none

/-- a literal character sequence. -/
def expectChars : Chars → Chars → Option Chars
  | [], cs => some cs
  | e :: es, cs =>
    match expectChar e cs with
    | none => none
    | some rest => expectChars es rest

/-- regex `.`: any character except a newline. -/
def anyCharNotNl (cs : Chars) : Option (Char × Chars) :=
  match cs with
  | [] => none
  | c :: rest => if c = '\n' then none else some (c, rest)

/-- numeric value of an ASCII digit. -/
def digitVal (c : Char) : Nat := c.toNat - 48

/-- `int()` applied to a non-empty decimal digit string. -/
def digitsToNat (ds : Chars) : Nat :=
  ds.foldl (fun n c => n * 10 + digitVal c) 0

/-- regex `\d+` followed by a non-digit: the greedy match takes the
maximal digit run (at least one digit); backtracking never helps here
because every continuation in `POSITIONS_LINE_RX` after a `\d+` starts
with a non-digit. -/
def plusDigits (cs : Chars) : Option (Nat × Chars) :=
  let ds := cs.takeWhile isDigitChar
  if ds = [] then none else some (digitsToNat ds, cs.dropWhile isDigitChar)

/-- `POSITIONS_LINE_RX.match(line)` (fastem_mipmapper.py lines 32-35):
the pattern
`(?P<file>\d{3}_\d{3}_0.tiff) at (?P<x>\d+), (?P<y>\d+)` matched at the
START of the line only — `re.match` does not anchor the end, so trailing
characters after the `y` digits are ignored.  Returns the captured
`(file, x, y)`. -/
def matchPositionsLine (cs : Chars) : Option (String × Nat × Nat) := do
  let (d1, r1) ← expectDigits 3 cs
  let r2 ← expectChar '_' r1
  let (d2, r3) ← expectDigits 3 r2
  let r4 ← expectChar '_' r3
  let r5 ← expectChar '0' r4
  let (dot, r6) ← anyCharNotNl r5
  let r7 ← expectChars ("tiff".toList) r6
  let r8 ← expectChars (" at ".toList) r7
  let (x, r9) ← plusDigits r8
  let r10 ← expectChars (", ".toList) r9
  let (y, _) ← plusDigits r10
  pure (String.mk (d1 ++ '_' :: d2 ++ '_' :: '0' :: dot :: ("tiff".toList)), x, y)

/-- dict assignment `positions[filename] = [x, y]`. -/
def posSet (acc : List (String × Nat × Nat)) (f : String) (v : Nat × Nat) :
    List (String × Nat × Nat) :=
  match acc with
  | [] => [(f, v)]
  | (f2, v2) :: rest =>
    if f2 = f then (f, v) :: rest else (f2, v2) :: posSet rest f v

/-- the parsing loop of `FASTEM_Mipmapper.find_positions` (lines 98-114)
over the data lines (the first line was already consumed by
`fp.readline()`): any line `re.match` rejects raises `RuntimeError`,
otherwise the captures are recorded. -/
def find_positions_lines (dataLines : List Chars) :
    Except String (List (String × Nat × Nat)) :=
  dataLines.foldlM (fun acc line =>
    match matchPositionsLine line with
    | none => .error "RuntimeError: positions.txt file could not be parsed"
    | some r => .ok (posSet acc r.1 r.2)) []

/-- the staircase tile arrangement used to analyse `get_match_tiles`:
four unit tiles at grid positions (0,0), (1,0), (0,1) and (2,2). -/
def staircase_bounds : List TileB :=
  [{ min_x := 0, min_y := 0, max_x := 1, max_y := 1, tile_id := "A",
     section_id := "s" },
   { min_x := 1, min_y := 0, max_x := 2, max_y := 1, tile_id := "B",
     section_id := "s" },
   { min_x := 0, min_y := 1, max_x := 1, max_y := 2, tile_id := "C",
     section_id := "s" },
   { min_x := 2, min_y := 2, max_x := 3, max_y := 3, tile_id := "D",
     section_id := "s" }]

/-! ## helper lemmas -/

theorem ratTrunc_intCast (n : Int) : ratTrunc (n : ℚ) = n := by
  unfold ratTrunc
  split
  · exact Int.floor_intCast n
  · exact Int.ceil_intCast n

theorem findBackground_none (bg : String → Option ℚ) (h : ∀ p, bg p = none) :
    ∀ search, findBackground search bg = none := by
  intro search
  induction search with
  | nil => rfl
  | cons p rest ih =>
    unfold findBackground
    rw [h p]
    exact ih

/-! ## claims about the post-corrector -/

/-- C1 counterexample: for raw pixel 0 and background 40000 the written
value is the wrapped-around 58304, while the spec's clamp formula gives 0
— post-correction does not clamp into the 16-bit range. -/
theorem claim_C1_counterexample :
    post_correct_pixel 0 40000 = 58304 ∧ spec_clamp_pixel 0 40000 = 0 ∧
    (58304 : Int) ≠ 0 := by
  refine ⟨?_, ?_, by decide⟩
  · unfold post_correct_pixel astypeUint16 ratTrunc RESTORE_MEAN_LEVEL
    norm_num
    rw [show ((-7232 : ℚ)) = ((-7232 : Int) : ℚ) from by norm_num,
      Int.ceil_intCast]
    decide
  · unfold spec_clamp_pixel ratTrunc RESTORE_MEAN_LEVEL
    norm_num
    rw [show ((-7232 : ℚ)) = ((-7232 : Int) : ℚ) from by norm_num,
      Int.ceil_intCast]
    decide

/-- C1 (amended): every corrected pixel equals
`raw − background + RESTORE_MEAN_LEVEL` truncated toward zero and reduced
modulo `2 ^ 16` — so it always lies in `[0, 65535]`, it is congruent to the
un-cast value modulo 65536, and it agrees with that value (hence with the
spec's clamp) exactly when the intermediate already lies in the 16-bit
range; out-of-range intermediates wrap around instead of clamping. -/
theorem claim_C1_amended (raw : Nat) (bg : ℚ) :
    post_correct_pixel raw bg < 65536 ∧
    ((post_correct_pixel raw bg : Int) -
      ratTrunc ((raw : ℚ) - bg + (RESTORE_MEAN_LEVEL : ℚ))) % 65536 = 0 ∧
    (0 ≤ ratTrunc ((raw : ℚ) - bg + (RESTORE_MEAN_LEVEL : ℚ)) →
      ratTrunc ((raw : ℚ) - bg + (RESTORE_MEAN_LEVEL : ℚ)) < 65536 →
      (post_correct_pixel raw bg : Int) =
        ratTrunc ((raw : ℚ) - bg + (RESTORE_MEAN_LEVEL : ℚ))) := by
  simp only [post_correct_pixel, astypeUint16]
  omega

/-- C1 witness: at raw pixel 40000 and background 32768 the intermediate
value 40000 is in range and the corrected pixel equals it. -/
theorem claim_C1_witness :
    0 ≤ ratTrunc (((40000 : Nat) : ℚ) - 32768 + (RESTORE_MEAN_LEVEL : ℚ)) ∧
    ratTrunc (((40000 : Nat) : ℚ) - 32768 + (RESTORE_MEAN_LEVEL : ℚ)) < 65536 ∧
    (post_correct_pixel 40000 32768 : Int) =
      ratTrunc (((40000 : Nat) : ℚ) - 32768 + (RESTORE_MEAN_LEVEL : ℚ)) := by
  have h : ratTrunc (((40000 : Nat) : ℚ) - 32768 + (RESTORE_MEAN_LEVEL : ℚ)) =
      40000 := by
    rw [show (((40000 : Nat) : ℚ) - 32768 + (RESTORE_MEAN_LEVEL : ℚ)) =
        ((40000 : Int) : ℚ) from by
      unfold RESTORE_MEAN_LEVEL
      push_cast
      norm_num]
    exact ratTrunc_intCast 40000
  exact ⟨by rw [h]; decide, by rw [h]; decide,
    (claim_C1_amended 40000 32768).2.2 (by rw [h]; decide) (by rw [h]; decide)⟩

/-- C5 counterexample: a section with exactly `MIN_CLEAN = 20` clean
images is marked failed (the code requires strictly more than 20 clean
images), contradicting the claim that failure means strictly fewer than
20 clean images. -/
theorem claim_C5_counterexample :
    post_correct_section "s" (List.replicate 20 0) 0 0 3 = ["s"] ∧
    ((List.replicate 20 (0 : ℚ)).filter
      (fun p => ! has_artefact p 0 0 3)).length = MIN_CLEAN := by
  constructor
  · unfold post_correct_section has_artefact MIN_CLEAN
    norm_num
  · unfold has_artefact MIN_CLEAN
    norm_num

/-- C5 (amended): a section is corrected (contributes no failed path) iff
STRICTLY MORE than `MIN_CLEAN = 20` of its images are clean, and
otherwise — including at exactly 20 clean images — its section path is
returned as failed; an image is clean iff its percentile lies in the
closed interval `[MED − a·MAD, MED + a·MAD]`. -/
theorem claim_C5_amended (parent : String) (ps : List ℚ) (med mad a : ℚ) :
    (post_correct_section parent ps med mad a = [] ↔
      MIN_CLEAN < (ps.filter (fun p => ! has_artefact p med mad a)).length) ∧
    (post_correct_section parent ps med mad a = [] ∨
      post_correct_section parent ps med mad a = [parent]) ∧
    (∀ p : ℚ, has_artefact p med mad a = false ↔
      (med - a * mad ≤ p ∧ p ≤ med + a * mad)) := by
  have e : post_correct_section parent ps med mad a =
      if MIN_CLEAN <
          (ps.filter (fun p => ! has_artefact p med mad a)).length then []
      else [parent] := rfl
  refine ⟨?_, ?_, ?_⟩
  · rw [e]
    split_ifs with h
    · simpa using h
    · simpa using h
  · rw [e]
    split_ifs with h
    · exact Or.inl rfl
    · exact Or.inr rfl
  · intro p
    simp only [has_artefact, Bool.or_eq_false_iff, decide_eq_false_iff_not,
      not_lt, gt_iff_lt]

/-- C8 counterexample: a failed section ("b", with neighbours "a" and "c")
none of whose neighbours has a stored background makes
`post_correct_failed_section` fail with the `NameError` CPython raises for
the unbound local `background` — an exception escapes, the outcome is not
a non-fatal report. -/
theorem claim_C8_counterexample :
    post_correct_failed_section ["a", "b", "c"] "b" (fun _ => none) [0] =
      .error "NameError: name background is not defined" := by
  rfl

/-- C8 (amended): whenever the failed section is in the project list and
no searched section has a stored background, the fallback pass raises an
unhandled `NameError` (the local `background` is never bound) after the
directory/metadata setup — so no corrected image is produced and the
failure is fatal to the caller rather than a non-fatal report. -/
theorem claim_C8_amended (pp : List String) (sd : String)
    (bg : String → Option ℚ) (raws : List Nat) (hmem : sd ∈ pp)
    (hbg : ∀ p, bg p = none) :
    post_correct_failed_section pp sd bg raws =
      .error "NameError: name background is not defined" := by
  unfold post_correct_failed_section
  rw [if_pos hmem]
  simp only [findBackground_none bg hbg]

/-- C8 witness: the amended claim instantiated at a two-section project. -/
theorem claim_C8_witness :
    "x" ∈ ["x", "y"] ∧
    post_correct_failed_section ["x", "y"] "x" (fun _ => none) [7] =
      .error "NameError: name background is not defined" :=
  ⟨by simp, claim_C8_amended ["x", "y"] "x" (fun _ => none) [7] (by simp)
    (fun _ => rfl)⟩

/-! ## claims about tile id assignment -/

/-- in a strictly descending list, the element at index `i` has exactly
`i` strictly greater elements. -/
theorem pairwise_gt_filter_length (l : List Nat) (hp : l.Pairwise (· > ·)) :
    ∀ (i : Nat) (h : i < l.length),
      (l.filter (fun u => l.get ⟨i, h⟩ < u)).length = i := by
  induction l with
  | nil => intro i h; exact absurd h (Nat.not_lt_zero i)
  | cons a l ih =>
    intro i h
    rcases List.pairwise_cons.mp hp with ⟨ha, hl⟩
    match i with
    | 0 =>
      simp only [List.get]
      have : List.filter (fun u => decide (a < u)) (a :: l) = [] := by
        rw [List.filter_eq_nil_iff]
        intro b hb
        simp only [decide_eq_true_eq]
        rcases List.mem_cons.mp hb with he | hb
        · subst he; exact lt_irrefl b
        · exact not_lt_of_gt (ha b hb)
      simp only [this, List.length_nil]
    | i + 1 =>
      have hlt : i < l.length := Nat.lt_of_succ_lt_succ h
      have hmem : l.get ⟨i, hlt⟩ ∈ l := List.get_mem l i hlt
      have hlta : l.get ⟨i, hlt⟩ < a := ha _ hmem
      simp only [List.get]
      rw [List.filter_cons]
      simp only [decide_eq_true_eq]
      rw [if_pos hlta]
      simp only [List.length_cons]
      rw [ih hl i hlt]

/-- C3: for every sealed Section with pairwise distinct acquisition
times, `set_tileids` assigns each tile the ID `{seq}_{stack}_{z}` where
`seq` is the tile's rank in descending acquisition-time order (the number
of strictly more recent tiles, so the newest tile gets 0), zero-padded to
`width = len(str(n))` for `n` tiles. -/
theorem claim_C3 (times : List Nat) (name : String) (z : Nat)
    (hnd : times.Nodup) :
    ∀ t ∈ times,
      (t, zfill (toString times.length).length
          (toString ((times.filter (fun u => t < u)).length)) ++ "_" ++
          name ++ "_" ++ toString z) ∈ set_tileids times name z := by
  intro t ht
  have e : set_tileids times name z =
      ((List.insertionSort (fun a b : Nat => a ≤ b) times).reverse).enum.map
        (fun p => (p.2, zfill (toString times.length).length (toString p.1) ++
          "_" ++ name ++ "_" ++ toString z)) := rfl
  set gen := (List.insertionSort (fun a b : Nat => a ≤ b) times).reverse with hgen
  have hperm : gen.Perm times :=
    (List.reverse_perm _).trans (List.perm_insertionSort _ times)
  have hsorted : gen.Pairwise (fun a b : Nat => b ≤ a) := by
    rw [hgen, List.pairwise_reverse]
    exact List.sorted_insertionSort _ times
  have hnd2 : gen.Nodup := hperm.nodup_iff.mpr hnd
  have hgt : gen.Pairwise (· > ·) := by
    refine List.Pairwise.imp₂ ?_ hsorted hnd2
    intro a b hle hne
    exact hle.lt_of_ne (Ne.symm hne)
  have htg : t ∈ gen := hperm.mem_iff.mpr ht
  obtain ⟨⟨i, hilt⟩, hget⟩ := List.mem_iff_get.mp htg
  have hcount : (gen.filter (fun u => t < u)).length = i := by
    rw [show t = gen.get ⟨i, hilt⟩ from hget.symm]
    exact pairwise_gt_filter_length gen hgt i hilt
  have hcount2 : (times.filter (fun u => t < u)).length = i := by
    rw [← hcount]
    exact (hperm.filter _).length_eq.symm
  rw [e, hcount2]
  have henum : ((i : Nat), t) ∈ gen.enum := by
    have hl : i < gen.enum.length := by
      rw [List.enum_length]; exact hilt
    have : gen.enum[i] = (i, gen[i]) := List.getElem_enum gen i hl
    have hgi : gen[i] = t := by
      rw [← hget]; rfl
    rw [hgi] at this
    rw [← this]
    exact List.getElem_mem hl
  exact List.mem_map_of_mem _ henum

/-- C3 witness: three tiles acquired at times 3, 1, 2 — the newest (3)
gets tileId `0_raw_5`. -/
theorem claim_C3_witness :
    ([3, 1, 2] : List Nat).Nodup ∧
    ((3 : Nat), "0_raw_5") ∈ set_tileids [3, 1, 2] "raw" 5 := by
  refine ⟨by decide, ?_⟩
  have h := claim_C3 [3, 1, 2] "raw" 5 (by decide) 3 (by decide)
  exact h

/-! ## claims about Section.add_tile -/

/-- successful `add_tiles` appends exactly the new acquisition times and
preserves distinctness. -/
theorem add_tiles_ok_spec : ∀ (ts : List TileR) (s0 s : SectionR),
    add_tiles s0 ts = .ok s →
      s.times = s0.times ++ ts.map TileR.time ∧
      (s0.times.Nodup → s.times.Nodup) := by
  intro ts
  induction ts with
  | nil =>
    intro s0 s h
    simp only [add_tiles, List.foldlM_nil, pure, Except.pure, Except.ok.injEq] at h
    subst h
    simp
  | cons t ts ih =>
    intro s0 s h
    simp only [add_tiles, List.foldlM_cons] at h
    rcases h1 : add_tile s0 t with e | s1
    · rw [h1] at h
      simp [Bind.bind, Except.bind] at h
    · rw [h1] at h
      simp only [Bind.bind, Except.bind] at h
      have hstep : s1.times = s0.times ++ [t.time] ∧ t.time ∉ s0.times := by
        unfold add_tile at h1
        split at h1
        · cases h1
        · rename_i hm
          split at h1
          · split at h1
            · cases h1
            · cases h1
              exact ⟨rfl, hm⟩
          · cases h1
            exact ⟨rfl, hm⟩
      have ihr := ih s1 s h
      constructor
      · rw [ihr.1, hstep.1]
        simp
      · intro hnd
        apply ihr.2
        rw [hstep.1]
        apply List.Nodup.append hnd (List.nodup_singleton _)
        simp only [List.disjoint_singleton]
        exact hstep.2

/-- once a nonzero pixel size is established, every further tile accepted
by `add_tiles` has that pixel size. -/
theorem add_tiles_ok_px : ∀ (ts : List TileR) (p : ℚ) (s0 s : SectionR),
    s0.pixel_size = some p → p ≠ 0 → add_tiles s0 ts = .ok s →
    ∀ t ∈ ts, t.px = p := by
  intro ts
  induction ts with
  | nil =>
    intro p s0 s _ _ _ t ht
    cases ht
  | cons t ts ih =>
    intro p s0 s hps hp h
    simp only [add_tiles, List.foldlM_cons] at h
    rcases h1 : add_tile s0 t with e | s1
    · rw [h1] at h
      simp [Bind.bind, Except.bind] at h
    · rw [h1] at h
      simp only [Bind.bind, Except.bind] at h
      have hstep : t.px = p ∧ s1.pixel_size = some t.px := by
        unfold add_tile at h1
        rw [hps] at h1
        split at h1
        · cases h1
        · split at h1
          · rename_i p2 hp2
            rw [Option.some.injEq] at hp2
            subst hp2
            split at h1
            · cases h1
            · rename_i hd
              rw [not_and_or, not_not, not_not] at hd
              rcases hd with hd | hd
              · exact absurd hd hp
              · cases h1
                exact ⟨hd, rfl⟩
          · rename_i hbad
            cases hbad
      intro u hu
      rcases List.mem_cons.mp hu with he | hu
      · subst he
        exact hstep.1
      · refine ih p s1 s ?_ hp h u hu
        rw [hstep.2, hstep.1]

/-- C4 (amended): `add_tile` raises iff the tile's acquisition time is a
duplicate, or the section's established pixel size is TRUTHY (set and
nonzero) and the new tile's pixel size differs from it.  Consequently any
section built by repeated successful `add_tile` has pairwise distinct
acquisition times, and — provided all pixel sizes are nonzero, so that
python truthiness equals is-not-None — a single pixel size. -/
theorem claim_C4_amended :
    (∀ (s : SectionR) (t : TileR),
      (∃ e, add_tile s t = .error e) ↔
        (t.time ∈ s.times ∨
          ∃ p, s.pixel_size = some p ∧ p ≠ 0 ∧ t.px ≠ p)) ∧
    (∀ (ts : List TileR) (s : SectionR),
      add_tiles emptySection ts = .ok s →
        (ts.map TileR.time).Nodup ∧
        ((∀ t ∈ ts, t.px ≠ 0) →
          ∀ t1 ∈ ts, ∀ t2 ∈ ts, t1.px = t2.px)) := by
  constructor
  · intro s t
    constructor
    · rintro ⟨e, he⟩
      unfold add_tile at he
      split at he
      · rename_i hm
        exact Or.inl hm
      · split at he
        · rename_i p2 hp2
          split at he
          · rename_i hd
            exact Or.inr ⟨p2, hp2, hd⟩
          · cases he
        · cases he
    · intro hor
      by_cases hm : t.time ∈ s.times
      · refine ⟨"ValueError: already has a spec", ?_⟩
        unfold add_tile
        rw [if_pos hm]
      · rcases hor with hm2 | ⟨p, hps, hd⟩
        · exact absurd hm2 hm
        · refine ⟨"ValueError: wrong pixel_size", ?_⟩
          unfold add_tile
          rw [if_neg hm]
          simp only [hps]
          rw [if_pos hd]
  · intro ts s h
    have hspec := add_tiles_ok_spec ts emptySection s h
    constructor
    · have hnd := hspec.2 (by simp [emptySection])
      rw [hspec.1] at hnd
      simpa [emptySection] using hnd
    · intro hnz
      cases ts with
      | nil =>
        intro t1 ht1
        cases ht1
      | cons t ts2 =>
        simp only [add_tiles, List.foldlM_cons] at h
        rcases h1 : add_tile emptySection t with e | s1
        · rw [h1] at h
          simp [Bind.bind, Except.bind] at h
        · rw [h1] at h
          simp only [Bind.bind, Except.bind] at h
          have hs1 : s1.pixel_size = some t.px := by
            unfold add_tile at h1
            split at h1
            · cases h1
            · split at h1
              · rename_i p2 hp2
                simp [emptySection] at hp2
              · cases h1
                rfl
          have hall : ∀ u ∈ ts2, u.px = t.px :=
            add_tiles_ok_px ts2 t.px s1 s hs1
              (hnz t (List.mem_cons_self t ts2)) h
          intro t1 ht1 t2 ht2
          have e1 : t1.px = t.px := by
            rcases List.mem_cons.mp ht1 with he1 | ht1b
            · rw [he1]
            · exact hall t1 ht1b
          have e2 : t2.px = t.px := by
            rcases List.mem_cons.mp ht2 with he2 | ht2b
            · rw [he2]
            · exact hall t2 ht2b
          rw [e1, e2]

/-- C4 counterexample: a first tile with pixel size 0.0 makes
`self.pixel_size` falsy, so a second tile whose pixel size 1 differs from
the established 0 is accepted without error (and silently overwrites the
section pixel size) — refuting the claimed "raises iff ... differs". -/
theorem claim_C4_counterexample :
    add_tiles emptySection [{ time := 0, px := 0 }, { time := 1, px := 1 }] =
      .ok { times := [0, 1], pixel_size := some 1 } ∧ (0 : ℚ) ≠ 1 :=
  ⟨rfl, by norm_num⟩

/-- C4 witness: two tiles with distinct times and equal nonzero pixel
size are accepted, and the amended claim yields unique times and a single
pixel size. -/
theorem claim_C4_witness :
    add_tiles emptySection [{ time := 0, px := 2 }, { time := 1, px := 2 }] =
      .ok { times := [0, 1], pixel_size := some 2 } ∧
    (([{ time := 0, px := 2 }, { time := 1, px := 2 }] : List TileR).map
      TileR.time).Nodup ∧
    (∀ t1 ∈ ([{ time := 0, px := 2 }, { time := 1, px := 2 }] : List TileR),
      ∀ t2 ∈ ([{ time := 0, px := 2 }, { time := 1, px := 2 }] : List TileR),
        t1.px = t2.px) := by
  have hok : add_tiles emptySection
      [{ time := 0, px := 2 }, { time := 1, px := 2 }] =
      .ok { times := [0, 1], pixel_size := some 2 } := rfl
  have h := claim_C4_amended.2 [{ time := 0, px := 2 }, { time := 1, px := 2 }]
    { times := [0, 1], pixel_size := some 2 } hok
  exact ⟨hok, h.1, h.2 (by decide)⟩

/-! ## claims about the matcher -/

/-- C7 counterexample: on a three-channel response with distinct
channels, `get_images` yields the FIRST channel (values 1 and 4), not the
green channel (values 2 and 5) the spec names. -/
theorem claim_C7_counterexample :
    get_images_h 1 [[[1, 2, 3], [4, 5, 6]]] = ([[1]], [[4]]) ∧
    spec_green_images_h 1 [[[1, 2, 3], [4, 5, 6]]] = ([[2]], [[5]]) ∧
    (([[1]], [[4]]) : List (List ℚ) × List (List ℚ)) ≠ ([[2]], [[5]]) := by
  refine ⟨rfl, rfl, by decide⟩

/-- both halves produced by `get_images` are slices of the channel-0
plane of the downloaded image. -/
theorem images_split_chan0 (overlap : Nat) (l : Image3) :
    get_images_h overlap l =
      ((chan0Plane l).map (List.take overlap),
       (chan0Plane l).map (List.drop overlap)) ∧
    get_images_v overlap l =
      ((chan0Plane l).take overlap, (chan0Plane l).drop overlap) := by
  unfold get_images_h get_images_v chan0Plane
  refine ⟨Prod.ext ?_ ?_, Prod.ext ?_ ?_⟩
  · simp only [List.map_take, List.map_map]
    try rfl
  · simp only [List.map_drop, List.map_map]
    try rfl
  · simp only [List.map_take]
    try rfl
  · simp only [List.map_drop]
    try rfl

/-- C7 (amended): for every seam image downloaded via the tile-image GET
the pipeline consumes exactly one channel for both halves of the seam —
but it is channel 0, the FIRST channel of the response (red for an RGB
PNG), not the green channel: two responses agreeing on channel 0 yield
identical halves regardless of their other channels. -/
theorem claim_C7_amended (overlap : Nat) (img img2 : Image3)
    (h : chan0Plane img = chan0Plane img2) :
    get_images_h overlap img = get_images_h overlap img2 ∧
    get_images_v overlap img = get_images_v overlap img2 := by
  rw [(images_split_chan0 overlap img).1, (images_split_chan0 overlap img).2,
    (images_split_chan0 overlap img2).1, (images_split_chan0 overlap img2).2, h]
  exact ⟨rfl, rfl⟩

/-- C7 witness: two images equal on channel 0 but different elsewhere
produce the same halves. -/
theorem claim_C7_witness :
    chan0Plane [[[1, 9, 9], [4, 8, 8]]] = chan0Plane [[[1, 2, 3], [4, 5, 6]]] ∧
    get_images_h 1 [[[1, 9, 9], [4, 8, 8]]] =
      get_images_h 1 [[[1, 2, 3], [4, 5, 6]]] ∧
    get_images_v 1 [[[1, 9, 9], [4, 8, 8]]] =
      get_images_v 1 [[[1, 2, 3], [4, 5, 6]]] :=
  ⟨rfl,
   (claim_C7_amended 1 [[[1, 9, 9], [4, 8, 8]]] [[[1, 2, 3], [4, 5, 6]]] rfl).1,
   (claim_C7_amended 1 [[[1, 9, 9], [4, 8, 8]]] [[[1, 2, 3], [4, 5, 6]]] rfl).2⟩

/-- C9: when the keypoints occupy more occupied bins than
`max_keypoints`, the integer-division quota `max_keypoints // total_pools`
is 0, `filter_keypoints` discards every keypoint, and `make_pointmatches`
returns no pointmatch for the pair (the empty dict), even though SIFT
found features. -/
theorem claim_C9 (maxKeypoints overlap : Nat) (kps : List KP)
    (h : maxKeypoints < (binsOf overlap kps).length) :
    maxKeypoints / (binsOf overlap kps).length = 0 ∧
    (filter_keypoints maxKeypoints overlap kps).all (fun b => b = false) = true ∧
    make_pointmatches_keep maxKeypoints overlap kps = none := by
  have hq : maxKeypoints / (binsOf overlap kps).length = 0 := Nat.div_eq_of_lt h
  have hmask : filter_keypoints maxKeypoints overlap kps =
      (List.range kps.length).map (fun _ => false) := by
    unfold filter_keypoints
    dsimp only
    rw [hq]
    simp only [List.take_zero, List.append_nil]
    have hconst : ∀ (bs : List ((Nat × Nat) × List (ℚ × Nat)))
        (acc : List (ℚ × Nat)),
        List.foldl (fun a _ => a) acc bs = acc := by
      intro bs
      induction bs with
      | nil => intro acc; rfl
      | cons b bs ih =>
        intro acc
        rw [List.foldl_cons]
        exact ih acc
    rw [hconst]
    simp
  refine ⟨hq, ?_, ?_⟩
  · rw [hmask]
    simp
  · unfold make_pointmatches_keep
    rw [hmask]
    simp

/-- C9 witness: three keypoints in three distinct bins with a quota cap
of 2 — every keypoint is dropped and no pointmatch is produced. -/
theorem claim_C9_witness :
    2 < (binsOf 400 [(0, 0, (1 : ℚ)), (400, 0, 1), (800, 0, 1)]).length ∧
    make_pointmatches_keep 2 400 [(0, 0, (1 : ℚ)), (400, 0, 1), (800, 0, 1)] =
      none :=
  ⟨by decide,
   (claim_C9 2 400 [(0, 0, (1 : ℚ)), (400, 0, 1), (800, 0, 1)] (by decide)).2.2⟩

/-! ## claims about positions.txt parsing -/

/-- C10 counterexample: the data line `000_000_0.tiff at 1, 2.5` has a
fractional y, yet `find_positions` accepts it (re.match only anchors the
start of the line) and records y = 2 from the leading digits — no error
is raised. -/
theorem claim_C10_counterexample :
    find_positions_lines [("000_000_0.tiff at 1, 2.5").toList] =
      .ok [("000_000_0.tiff", 1, 2)] := by
  rfl

/-- `takeWhile`/`dropWhile` split an all-digit run followed by a
non-digit boundary. -/
theorem span_digits_append (xs tail : Chars) (hall : xs.all isDigitChar = true)
    (htail : ∀ c, tail.head? = some c → isDigitChar c = false) :
    (xs ++ tail).takeWhile isDigitChar = xs ∧
    (xs ++ tail).dropWhile isDigitChar = tail := by
  induction xs with
  | nil =>
    simp only [List.nil_append]
    cases tail with
    | nil => exact ⟨rfl, rfl⟩
    | cons c t =>
      have hc : isDigitChar c = false := htail c rfl
      constructor
      · rw [List.takeWhile_cons, hc]
        simp
      · rw [List.dropWhile_cons, hc]
        simp
  | cons x xs ih =>
    have hx : isDigitChar x = true := by
      simp only [List.all_cons, Bool.and_eq_true] at hall
      exact hall.1
    have hxs : xs.all isDigitChar = true := by
      simp only [List.all_cons, Bool.and_eq_true] at hall
      exact hall.2
    have ihr := ih hxs
    constructor
    · rw [List.cons_append, List.takeWhile_cons, hx]
      simp only [ihr.1]
      simp
    · rw [List.cons_append, List.dropWhile_cons, hx]
      simp only [ihr.2]
      simp

/-- the greedy `\d+` consumes exactly a maximal digit run. -/
theorem plusDigits_append (xs tail : Chars) (hne : xs ≠ [])
    (hall : xs.all isDigitChar = true)
    (htail : ∀ c, tail.head? = some c → isDigitChar c = false) :
    plusDigits (xs ++ tail) = some (digitsToNat xs, tail) := by
  unfold plusDigits
  dsimp only
  rw [(span_digits_append xs tail hall htail).1,
    (span_digits_append xs tail hall htail).2]
  rw [if_neg hne]

/-- `POSITIONS_LINE_RX.match` on a well-formed prefix with arbitrary
trailing characters after the y digits. -/
theorem matchPositionsLine_eval (xs ys rest : Chars) (hx : xs ≠ [])
    (hy : ys ≠ []) (hxd : xs.all isDigitChar = true)
    (hyd : ys.all isDigitChar = true)
    (hrest : ∀ c, rest.head? = some c → isDigitChar c = false) :
    matchPositionsLine
      (("000_000_0.tiff at ").toList ++ xs ++ (", ").toList ++ ys ++ rest) =
      some ("000_000_0.tiff", digitsToNat xs, digitsToNat ys) := by
  have hcomma : ∀ c : Char, ((", ").toList ++ (ys ++ rest)).head? = some c →
      isDigitChar c = false := by
    intro c hc
    rw [show ((", ").toList ++ (ys ++ rest)) = ',' :: ' ' :: (ys ++ rest)
      from rfl] at hc
    rw [List.head?_cons, Option.some.injEq] at hc
    rw [← hc]
    decide
  have hxstep := plusDigits_append xs ((", ").toList ++ (ys ++ rest)) hx hxd hcomma
  have hystep := plusDigits_append ys rest hy hyd hrest
  have chain : ∀ t : Chars,
      matchPositionsLine (("000_000_0.tiff at ").toList ++ t) =
      (plusDigits t).bind (fun p1 =>
        (expectChars ((", ").toList) p1.2).bind (fun r10 =>
          (plusDigits r10).bind (fun p2 =>
            some ("000_000_0.tiff", p1.1, p2.1)))) := fun t => rfl
  simp only [List.append_assoc]
  rw [chain (xs ++ ((", ").toList ++ (ys ++ rest)))]
  rw [hxstep]
  show (plusDigits (ys ++ rest)).bind (fun p2 =>
    some ("000_000_0.tiff", digitsToNat xs, p2.1)) = _
  rw [hystep]
  rfl

/-- C10 (amended): `find_positions` accepts exactly the lines whose
PREFIX matches the pattern: a data line with nonempty digit runs for x
and y is accepted no matter what follows the y digits (so a fractional y
such as `2.5` is accepted with y truncated to its leading digits), while
a `-` before the x digits (negative or otherwise malformed x, or negative
y by the same argument) makes the regex fail and `find_positions` raise
`RuntimeError` instead of returning positions. -/
theorem claim_C10_amended :
    (∀ (xs ys rest : Chars), xs ≠ [] → ys ≠ [] →
      xs.all isDigitChar = true → ys.all isDigitChar = true →
      (∀ c, rest.head? = some c → isDigitChar c = false) →
      find_positions_lines
        [("000_000_0.tiff at ").toList ++ xs ++ (", ").toList ++ ys ++ rest] =
        .ok [("000_000_0.tiff", digitsToNat xs, digitsToNat ys)]) ∧
    (∀ rest2 : Chars,
      find_positions_lines [("000_000_0.tiff at -").toList ++ rest2] =
        .error "RuntimeError: positions.txt file could not be parsed") := by
  constructor
  · intro xs ys rest hx hy hxd hyd hrest
    unfold find_positions_lines
    rw [List.foldlM_cons]
    rw [matchPositionsLine_eval xs ys rest hx hy hxd hyd hrest]
    rfl
  · intro rest2
    rfl

/-- C10 witness: the line `000_000_0.tiff at 2, 3.5` is accepted with
x = 2, y = 3. -/
theorem claim_C10_witness :
    (['2'] : Chars) ≠ [] ∧ (['3'] : Chars) ≠ [] ∧
    (['2'] : Chars).all isDigitChar = true ∧
    (['3'] : Chars).all isDigitChar = true ∧
    find_positions_lines
      [("000_000_0.tiff at ").toList ++ ['2'] ++ (", ").toList ++ ['3'] ++
        ['.', '5']] =
      .ok [("000_000_0.tiff", digitsToNat ['2'], digitsToNat ['3'])] :=
  ⟨by decide, by decide, by decide, by decide,
   claim_C10_amended.1 ['2'] ['3'] ['.', '5'] (by decide) (by decide)
     (by decide) (by decide)
     (by
       intro c hc
       rw [show (['.', '5'] : Chars).head? = some '.' from rfl,
         Option.some.injEq] at hc
       rw [← hc]
       decide)⟩

/-! ## claims about tilepair discovery -/

/-- dict assignment preserves the presence of every key. -/
theorem dictGet_isSome_dictSet (d : List (ℚ × List (ℚ × String)))
    (x y x2 : ℚ) (tid : String) (h : (dictGet d x2).isSome) :
    (dictGet (dictSet d x y tid) x2).isSome := by
  induction d with
  | nil => simp [dictGet] at h
  | cons kv rest ih =>
    obtain ⟨x3, yd⟩ := kv
    by_cases hx3 : x3 = x
    · subst hx3
      rw [dictSet]
      rw [if_pos rfl]
      by_cases hx32 : x3 = x2
      · subst hx32
        simp [dictGet]
      · rw [dictGet, if_neg hx32]
        rw [dictGet, if_neg hx32] at h
        exact h
    · rw [dictSet, if_neg hx3]
      by_cases hx32 : x3 = x2
      · subst hx32
        simp [dictGet]
      · rw [dictGet, if_neg hx32]
        rw [dictGet, if_neg hx32] at h
        exact ih h

/-- dict assignment makes its own key present. -/
theorem dictGet_isSome_dictSet_self (d : List (ℚ × List (ℚ × String)))
    (x y : ℚ) (tid : String) : (dictGet (dictSet d x y tid) x).isSome := by
  induction d with
  | nil => simp [dictSet, dictGet]
  | cons kv rest ih =>
    obtain ⟨x3, yd⟩ := kv
    by_cases hx3 : x3 = x
    · subst hx3
      rw [dictSet, if_pos rfl, dictGet, if_pos rfl]
      rfl
    · rw [dictSet, if_neg hx3, dictGet, if_neg hx3]
      exact ih

/-- every tile's `min_x` is a key of `x_dict`, so the `assert x in
x_dict` in the y-direction loop can never fire. -/
theorem build_x_dict_covers (bounds : List TileB) :
    ∀ t ∈ bounds, (dictGet (build_x_dict bounds) t.min_x).isSome := by
  have hmono : ∀ (l : List TileB) (d : List (ℚ × List (ℚ × String))) (x : ℚ),
      (dictGet d x).isSome →
      (dictGet (l.foldl (fun d t => dictSet d t.min_x t.min_y t.tile_id) d)
        x).isSome := by
    intro l
    induction l with
    | nil => intro d x h; exact h
    | cons t ts ih =>
      intro d x h
      rw [List.foldl_cons]
      exact ih _ x (dictGet_isSome_dictSet d t.min_x t.min_y x t.tile_id h)
  have hgen : ∀ (l : List TileB) (d : List (ℚ × List (ℚ × String))),
      ∀ t ∈ l,
      (dictGet (l.foldl (fun d t => dictSet d t.min_x t.min_y t.tile_id) d)
        t.min_x).isSome := by
    intro l
    induction l with
    | nil => intro d t ht; cases ht
    | cons u ts ih =>
      intro d t ht
      rw [List.foldl_cons]
      rcases List.mem_cons.mp ht with he | ht2
      · subst he
        exact hmono ts _ t.min_x (dictGet_isSome_dictSet_self d _ _ _)
      · exact ih _ t ht2
  exact hgen bounds []

/-- the y-direction loop never hits its assertion when every tile's
`min_x` is a dict key. -/
theorem y_scan_ok (d : List (ℚ × List (ℚ × String))) (bounds : List TileB)
    (h : ∀ t ∈ bounds, (dictGet d t.min_x).isSome) :
    ∃ r, y_scan d bounds = .ok r := by
  have hgen : ∀ (l : List TileB) (acc : List MatchT × Nat),
      (∀ t ∈ l, (dictGet d t.min_x).isSome) →
      ∃ r, List.foldlM (fun acc t =>
        match dictGet d t.min_x with
        | none => (.error "AssertionError" : Except String (List MatchT × Nat))
        | some yd =>
          match innerGet yd t.max_y with
          | none => .ok (acc.1, acc.2 + 1)
          | some m =>
            .ok (acc.1 ++ [(t.tile_id, m, t.min_x, t.max_y, t.section_id)],
              acc.2)) acc l = .ok r := by
    intro l
    induction l with
    | nil => intro acc _; exact ⟨acc, rfl⟩
    | cons t ts ih =>
      intro acc hl
      rw [List.foldlM_cons]
      have hsome := hl t (List.mem_cons_self t ts)
      rcases hd : dictGet d t.min_x with _ | yd
      · rw [hd] at hsome
        simp at hsome
      · simp only [Bind.bind, Except.bind]
        rcases hi : innerGet yd t.max_y with _ | m
        · exact ih _ (fun u hu => hl u (List.mem_cons_of_mem t hu))
        · exact ih _ (fun u hu => hl u (List.mem_cons_of_mem t hu))
  exact hgen bounds ([], 0) h

/-- C2 (amended): per z level, the y-loop assertion never fires, and
tilepair discovery succeeds if and only if the tiles are size-uniform,
both match lists are nonempty, and the unmatched counts satisfy
`ylen ≤ x_unmatched` and `xlen ≤ y_unmatched` — the code raises the fatal
"matched more tiles than possible" error when a count is STRICTLY BELOW
its bound, while a count exceeding the bound only logs a non-rectangle
notice and is accepted. -/
theorem claim_C2_amended (bounds : List TileB) :
    ∃ yr, y_scan (build_x_dict bounds) bounds = .ok yr ∧
      ((∃ out, get_match_tiles_z bounds = .ok out) ↔
        ((∃ s, size_check none bounds = .ok s) ∧
         (x_scan (build_x_dict bounds) bounds).1 ≠ [] ∧
         ylenOf (build_x_dict bounds) ≤ (x_scan (build_x_dict bounds) bounds).2 ∧
         yr.1 ≠ [] ∧
         (build_x_dict bounds).length ≤ yr.2)) := by
  obtain ⟨yr, hyr⟩ := y_scan_ok (build_x_dict bounds) bounds
    (build_x_dict_covers bounds)
  refine ⟨yr, hyr, ?_⟩
  unfold get_match_tiles_z
  rcases hs : size_check none bounds with e | s
  · simp
  · dsimp only
    rw [hyr]
    by_cases h1 : (x_scan (build_x_dict bounds) bounds).1 = []
    · rw [if_pos h1]
      simp [h1]
    · rw [if_neg h1]
      by_cases h2 : (x_scan (build_x_dict bounds) bounds).2 <
          ylenOf (build_x_dict bounds)
      · rw [if_pos h2]
        simp [h1, h2, Nat.not_le.mpr h2]
      · rw [if_neg h2]
        dsimp only
        by_cases h3 : yr.1 = []
        · rw [if_pos h3]
          simp [h1, h3]
        · rw [if_neg h3]
          by_cases h4 : yr.2 < (build_x_dict bounds).length
          · rw [if_pos h4]
            simp [h1, h3, Nat.not_le.mpr h4, Nat.le_of_not_lt h2]
          · rw [if_neg h4]
            simp [h1, h3, Nat.le_of_not_lt h2, Nat.le_of_not_lt h4]

/-- C2 counterexample: a staircase arrangement (tiles at grid positions
(0,0), (1,0), (0,1) and (2,2), size 1) has `x_unmatched = 3 > ylen = 2`,
which the claim says must be fatal — yet `get_match_tiles` accepts it and
returns the matches. -/
theorem claim_C2_counterexample :
    get_match_tiles_z staircase_bounds =
      .ok ([("A", "B", 1, 0, "s")], [("A", "C", 0, 1, "s")]) ∧
    (x_scan (build_x_dict staircase_bounds) staircase_bounds).2 = 3 ∧
    ylenOf (build_x_dict staircase_bounds) = 2 ∧
    ¬ (x_scan (build_x_dict staircase_bounds) staircase_bounds).2 ≤
      ylenOf (build_x_dict staircase_bounds) := by
  refine ⟨?_, ?_, ?_, ?_⟩ <;>
    norm_num [staircase_bounds, get_match_tiles_z, size_check, build_x_dict,
      dictSet, innerSet, x_scan, y_scan, dictGet, innerGet, ylenOf,
      List.foldl, List.foldlM, Bind.bind, Except.bind, pure, Except.pure]

/-! ## claims about connectivity filtering -/

/-- `pop` returns a dict whose entries all come from the original. -/
theorem popKey_subset (d : AdjT) (k : String) :
    ∀ pair ∈ (popKey d k).2, pair ∈ d := by
  induction d with
  | nil => intro pair hp; cases hp
  | cons kv rest ih =>
    obtain ⟨k2, l⟩ := kv
    by_cases hk : k2 = k
    · rw [popKey, if_pos hk]
      intro pair hp
      exact List.mem_cons_of_mem _ hp
    · rw [popKey, if_neg hk]
      intro pair hp
      rcases List.mem_cons.mp hp with he | ht
      · rw [he]
        exact List.mem_cons_self _ _
      · exact List.mem_cons_of_mem _ (ih pair ht)

/-- popping a present key returns that key's stored adjacency list. -/
theorem popKey_fst_mem (d : AdjT) (k : String) (h : k ∈ adjKeys d) :
    (k, (popKey d k).1) ∈ d := by
  induction d with
  | nil => cases h
  | cons kv rest ih =>
    obtain ⟨k2, l⟩ := kv
    by_cases hk : k2 = k
    · rw [popKey, if_pos hk]
      rw [← hk]
      exact List.mem_cons_self _ _
    · rw [popKey, if_neg hk]
      have h2 : k ∈ adjKeys rest := by
        rcases List.mem_cons.mp h with he | ht
        · exact absurd he.symm hk
        · exact ht
      exact List.mem_cons_of_mem _ (ih h2)

/-- `pop` never grows the dict. -/
theorem popKey_length_le (d : AdjT) (k : String) :
    (popKey d k).2.length ≤ d.length := by
  induction d with
  | nil => exact Nat.le_refl 0
  | cons kv rest ih =>
    obtain ⟨k2, l⟩ := kv
    by_cases hk : k2 = k
    · rw [popKey, if_pos hk]
      simp
    · rw [popKey, if_neg hk]
      simp only [List.length_cons]
      exact Nat.succ_le_succ ih

/-- popping a present key strictly shrinks the dict. -/
theorem popKey_length_lt (d : AdjT) (k : String) (h : k ∈ adjKeys d) :
    (popKey d k).2.length < d.length := by
  induction d with
  | nil => cases h
  | cons kv rest ih =>
    obtain ⟨k2, l⟩ := kv
    by_cases hk : k2 = k
    · rw [popKey, if_pos hk]
      simp
    · rw [popKey, if_neg hk]
      simp only [List.length_cons]
      have h2 : k ∈ adjKeys rest := by
        rcases List.mem_cons.mp h with he | ht
        · exact absurd he.symm hk
        · exact ht
      exact Nat.succ_lt_succ (ih h2)

/-- everything on the stack after pushing came from the old stack or the
pushed adjacency list. -/
theorem pushItems_mem (connected : List String) :
    ∀ (adj checking : List String) (x : String),
    x ∈ pushItems connected checking adj → x ∈ checking ∨ x ∈ adj := by
  intro adj
  induction adj with
  | nil => intro checking x hx; exact Or.inl hx
  | cons item adj ih =>
    intro checking x hx
    rw [pushItems] at hx
    rcases ih _ x hx with hc | ha
    · by_cases hcond : item ∈ connected ∨ item ∈ checking
      · rw [if_pos hcond] at hc
        exact Or.inl hc
      · rw [if_neg hcond] at hc
        rcases List.mem_cons.mp hc with he | hc2
        · exact Or.inr (he ▸ List.mem_cons_self _ _)
        · exact Or.inl hc2
    · exact Or.inr (List.mem_cons_of_mem _ ha)

/-- one unfolding of the traversal loop. -/
theorem exploreF_step (fuel : Nat) (d : AdjT) (c : List String)
    (name : String) (rest : List String) :
    exploreF (fuel + 1) d c (name :: rest) =
      if name ∈ adjKeys d then
        exploreF fuel (popKey d name).2 (c.insert name)
          (pushItems (c.insert name) rest (popKey d name).1)
      else exploreF fuel d (c.insert name) rest := rfl

/-- soundness of the traversal: when every already-collected and queued
tile is reachable from `r` in the original adjacency graph, so is every
tile of the resulting `connected` group. -/
theorem exploreF_reach (d0 : AdjT) (r : String) :
    ∀ (fuel : Nat) (d : AdjT) (c ch : List String),
    (∀ pair ∈ d, pair ∈ d0) →
    (∀ x ∈ c, Relation.ReflTransGen (adjRel d0) r x) →
    (∀ x ∈ ch, Relation.ReflTransGen (adjRel d0) r x) →
    ∀ x ∈ (exploreF fuel d c ch).1,
      Relation.ReflTransGen (adjRel d0) r x := by
  intro fuel
  induction fuel with
  | zero => intro d c ch _ hc _ x hx; exact hc x hx
  | succ fuel ih =>
    intro d c ch hd hc hch x hx
    cases ch with
    | nil => exact hc x hx
    | cons name rest =>
      rw [exploreF_step] at hx
      have hcins : ∀ z ∈ c.insert name,
          Relation.ReflTransGen (adjRel d0) r z := by
        intro z hz
        rcases List.mem_insert_iff.mp hz with he | hzc
        · exact he ▸ hch name (List.mem_cons_self _ _)
        · exact hc z hzc
      by_cases hk : name ∈ adjKeys d
      · rw [if_pos hk] at hx
        refine ih _ _ _ ?_ hcins ?_ x hx
        · intro pair hp
          exact hd pair (popKey_subset d name pair hp)
        · intro z hz
          rcases pushItems_mem (c.insert name) (popKey d name).1 rest z hz
            with hzr | hzadj
          · exact hch z (List.mem_cons_of_mem _ hzr)
          · have hpair := popKey_fst_mem d name hk
            have hadj : adjRel d0 name z :=
              ⟨(popKey d name).1, hd _ hpair, hzadj⟩
            exact Relation.ReflTransGen.tail
              (hch name (List.mem_cons_self _ _)) hadj
      · rw [if_neg hk] at hx
        refine ih _ _ _ hd hcins ?_ x hx
        intro z hz
        exact hch z (List.mem_cons_of_mem _ hz)

/-- the residual dict of a traversal is a subset of its input dict. -/
theorem exploreF_subset_dict :
    ∀ (fuel : Nat) (d : AdjT) (c ch : List String),
    ∀ pair ∈ (exploreF fuel d c ch).2, pair ∈ d := by
  intro fuel
  induction fuel with
  | zero => intro d c ch pair hp; exact hp
  | succ fuel ih =>
    intro d c ch pair hp
    cases ch with
    | nil => exact hp
    | cons name rest =>
      rw [exploreF_step] at hp
      by_cases hk : name ∈ adjKeys d
      · rw [if_pos hk] at hp
        exact popKey_subset d name pair (ih _ _ _ pair hp)
      · rw [if_neg hk] at hp
        exact ih _ _ _ pair hp

/-- a traversal never grows the dict. -/
theorem exploreF_dict_le :
    ∀ (fuel : Nat) (d : AdjT) (c ch : List String),
    (exploreF fuel d c ch).2.length ≤ d.length := by
  intro fuel
  induction fuel with
  | zero => intro d c ch; exact Nat.le_refl _
  | succ fuel ih =>
    intro d c ch
    cases ch with
    | nil => exact Nat.le_refl _
    | cons name rest =>
      rw [exploreF_step]
      by_cases hk : name ∈ adjKeys d
      · rw [if_pos hk]
        exact Nat.le_trans (ih _ _ _) (popKey_length_le d name)
      · rw [if_neg hk]
        exact ih _ _ _

/-- every group collected by the outer while loop has a root from which
all its members are reachable in the original graph. -/
theorem findGroupsF_reach (d0 : AdjT) :
    ∀ (fuel : Nat) (d : AdjT), (∀ pair ∈ d, pair ∈ d0) →
    ∀ g ∈ findGroupsF fuel d, ∃ r, ∀ x ∈ g,
      Relation.ReflTransGen (adjRel d0) r x := by
  intro fuel
  induction fuel with
  | zero => intro d _ g hg; cases hg
  | succ fuel ih =>
    intro d hd g hg
    cases d with
    | nil => cases hg
    | cons kv rest =>
      obtain ⟨k, l⟩ := kv
      rw [findGroupsF] at hg
      rcases List.mem_cons.mp hg with he | ht
      · refine ⟨k, ?_⟩
        rw [he]
        intro x hx
        refine exploreF_reach d0 k _ _ [] [k] hd ?_ ?_ x hx
        · intro z hz
          cases hz
        · intro z hz
          rcases List.mem_cons.mp hz with hze | hz2
          · exact hze ▸ Relation.ReflTransGen.refl
          · cases hz2
      · refine ih _ ?_ g ht
        intro pair hp
        exact hd pair (exploreF_subset_dict _ _ _ _ pair hp)

/-- the selected group is one of the groups (or nothing was selected). -/
theorem pick_largest_mem (groups : List (List String)) :
    pick_largest groups ∈ groups ∨ pick_largest groups = [] := by
  have hgen : ∀ (gs : List (List String)) (best : List String),
      gs.foldl (fun best g => if best.length < g.length then g else best)
        best ∈ gs ∨
      gs.foldl (fun best g => if best.length < g.length then g else best)
        best = best := by
    intro gs
    induction gs with
    | nil => intro best; exact Or.inr rfl
    | cons g gs ih =>
      intro best
      rw [List.foldl_cons]
      rcases ih (if best.length < g.length then g else best) with hm | he
      · exact Or.inl (List.mem_cons_of_mem _ hm)
      · rw [he]
        by_cases hlt : best.length < g.length
        · rw [if_pos hlt]
          exact Or.inl (List.mem_cons_self _ _)
        · rw [if_neg hlt]
          exact Or.inr rfl
  exact hgen groups []

/-- the selected group is at least as large as every group. -/
theorem pick_largest_maximal (groups : List (List String)) :
    ∀ g ∈ groups, g.length ≤ (pick_largest groups).length := by
  have hgen : ∀ (gs : List (List String)) (best : List String),
      best.length ≤
        (gs.foldl (fun best g => if best.length < g.length then g else best)
          best).length ∧
      ∀ g ∈ gs, g.length ≤
        (gs.foldl (fun best g => if best.length < g.length then g else best)
          best).length := by
    intro gs
    induction gs with
    | nil => intro best; exact ⟨Nat.le_refl _, fun g hg => absurd hg (by simp)⟩
    | cons g gs ih =>
      intro best
      rw [List.foldl_cons]
      have hb : best.length ≤
          (if best.length < g.length then g else best).length := by
        by_cases hlt : best.length < g.length
        · rw [if_pos hlt]
          exact Nat.le_of_lt hlt
        · rw [if_neg hlt]
      have hg1 : g.length ≤
          (if best.length < g.length then g else best).length := by
        by_cases hlt : best.length < g.length
        · rw [if_pos hlt]
        · rw [if_neg hlt]
          exact Nat.le_of_not_lt hlt
      have ihr := ih (if best.length < g.length then g else best)
      refine ⟨Nat.le_trans hb ihr.1, ?_⟩
      intro g2 hg2
      rcases List.mem_cons.mp hg2 with he | ht
      · rw [he]
        exact Nat.le_trans hg1 ihr.1
      · exact ihr.2 g2 ht
  intro g hg
  exact (hgen groups []).2 g hg

/-- adjacency through a cons cell. -/
theorem adjRel_cons (k2 : String) (l2 : List String) (rest : AdjT)
    (u w : String) :
    adjRel ((k2, l2) :: rest) u w ↔ (u = k2 ∧ w ∈ l2) ∨ adjRel rest u w := by
  unfold adjRel
  constructor
  · rintro ⟨l, hl, hw⟩
    rcases List.mem_cons.mp hl with he | ht
    · rw [Prod.mk.injEq] at he
      exact Or.inl ⟨he.1, he.2 ▸ hw⟩
    · exact Or.inr ⟨l, ht, hw⟩
  · rintro (⟨he, hw⟩ | ⟨l, hl, hw⟩)
    · exact ⟨l2, by rw [he]; exact List.mem_cons_self _ _, hw⟩
    · exact ⟨l, List.mem_cons_of_mem _ hl, hw⟩

/-- appending `v` to `d[k]` adds exactly the directed edge `k → v`. -/
theorem dictAppend_adjRel (d : AdjT) (k v u w : String) :
    adjRel (dictAppend d k v) u w ↔ adjRel d u w ∨ (u = k ∧ w = v) := by
  induction d with
  | nil =>
    rw [dictAppend, adjRel_cons]
    simp [adjRel]
  | cons kv rest ih =>
    obtain ⟨k2, l2⟩ := kv
    by_cases hk : k2 = k
    · subst hk
      rw [dictAppend, if_pos rfl, adjRel_cons, adjRel_cons]
      simp only [List.mem_append, List.mem_singleton]
      tauto
    · rw [dictAppend, if_neg hk, adjRel_cons, adjRel_cons, ih]
      tauto

/-- the undirected edge relation through a cons cell. -/
theorem edgeRel_cons (m : PMatch) (ms : List PMatch) (u w : String) :
    edgeRel (m :: ms) u w ↔
      ((u = m.pId ∧ w = m.qId) ∨ (u = m.qId ∧ w = m.pId)) ∨
        edgeRel ms u w := by
  unfold edgeRel
  constructor
  · rintro ⟨m2, hm2, hcase⟩
    rcases List.mem_cons.mp hm2 with he | ht
    · subst he
      rcases hcase with ⟨h1, h2⟩ | ⟨h1, h2⟩
      · exact Or.inl (Or.inl ⟨h1.symm, h2.symm⟩)
      · exact Or.inl (Or.inr ⟨h2.symm, h1.symm⟩)
    · exact Or.inr ⟨m2, ht, hcase⟩
  · rintro ((⟨h1, h2⟩ | ⟨h1, h2⟩) | ⟨m2, ht, hcase⟩)
    · exact ⟨m, List.mem_cons_self _ _, Or.inl ⟨h1.symm, h2.symm⟩⟩
    · exact ⟨m, List.mem_cons_self _ _, Or.inr ⟨h2.symm, h1.symm⟩⟩
    · exact ⟨m2, List.mem_cons_of_mem _ ht, hcase⟩

/-- accumulating matches into the connection dict adds exactly their
undirected edges. -/
theorem foldl_connections_adjRel :
    ∀ (ms : List PMatch) (d : AdjT) (u w : String),
    adjRel (ms.foldl
      (fun d m => dictAppend (dictAppend d m.pId m.qId) m.qId m.pId) d) u w ↔
      adjRel d u w ∨ edgeRel ms u w := by
  intro ms
  induction ms with
  | nil =>
    intro d u w
    simp [edgeRel]
  | cons m ms ih =>
    intro d u w
    rw [List.foldl_cons, ih, dictAppend_adjRel, dictAppend_adjRel,
      edgeRel_cons]
    tauto

/-- the adjacency built by `get_all_matches` relates two tiles iff some
accepted pointmatch joins them. -/
theorem build_connections_adjRel (ms : List PMatch) (u w : String) :
    adjRel (build_connections ms) u w ↔ edgeRel ms u w := by
  unfold build_connections
  rw [foldl_connections_adjRel]
  simp [adjRel]

/-- the match graph is undirected. -/
theorem edgeRel_symm (ms : List PMatch) : Symmetric (edgeRel ms) := by
  rintro u w ⟨m, hm, hcase⟩
  exact ⟨m, hm, hcase.symm⟩

/-- C6: per z-level, `filter_tilespecs` keeps the tiles of a largest
connected group of the undirected match graph: every kept tile is
reachable in the match graph from every other kept tile, every
pointmatch that is not uploaded touches only discarded tiles (both of its
endpoints are outside the kept group), and the kept group is at least as
large as every group the traversal finds. -/
theorem claim_C6 (ms : List PMatch) :
    (∀ t1 ∈ (filter_tilespecs_z ms).1, ∀ t2 ∈ (filter_tilespecs_z ms).1,
      matchReach ms t1 t2) ∧
    (∀ m ∈ ms, m ∉ (filter_tilespecs_z ms).2 →
      m.pId ∉ (filter_tilespecs_z ms).1 ∧
      m.qId ∉ (filter_tilespecs_z ms).1) ∧
    (∀ g ∈ findGroups (build_connections ms),
      g.length ≤ (filter_tilespecs_z ms).1.length) := by
  have hL : (filter_tilespecs_z ms).1 =
      pick_largest (findGroups (build_connections ms)) := rfl
  refine ⟨?_, ?_, ?_⟩
  · intro t1 ht1 t2 ht2
    rw [hL] at ht1 ht2
    rcases pick_largest_mem (findGroups (build_connections ms)) with hmem | hemp
    · obtain ⟨r, hr⟩ := findGroupsF_reach (build_connections ms) _ _
        (fun p hp => hp) _ hmem
      have conv : ∀ a b,
          Relation.ReflTransGen (adjRel (build_connections ms)) a b →
          matchReach ms a b := fun a b h =>
        Relation.ReflTransGen.mono
          (fun x y hxy => (build_connections_adjRel ms x y).mp hxy) h
      have e1 := conv r t1 (hr t1 ht1)
      have e2 := conv r t2 (hr t2 ht2)
      have s1 : matchReach ms t1 r :=
        Relation.ReflTransGen.symmetric (edgeRel_symm ms) e1
      exact Relation.ReflTransGen.trans s1 e2
    · rw [hemp] at ht1
      cases ht1
  · intro m hm hnot
    have hnor : ¬ (m.pId ∈ (filter_tilespecs_z ms).1 ∨
        m.qId ∈ (filter_tilespecs_z ms).1) := by
      intro hor
      apply hnot
      have hsend : (filter_tilespecs_z ms).2 = ms.filter
          (fun d => decide (d.pId ∈ (filter_tilespecs_z ms).1 ∨
            d.qId ∈ (filter_tilespecs_z ms).1)) := rfl
      rw [hsend]
      exact List.mem_filter.mpr ⟨hm, by simpa using hor⟩
    exact ⟨fun h => hnor (Or.inl h), fun h => hnor (Or.inr h)⟩
  · intro g hg
    rw [hL]
    exact pick_largest_maximal _ g hg

/-- C6 witness: with matches a-b, c-d and d-e, the kept group is the
component of c, d, e, and c reaches e through the match graph. -/
theorem claim_C6_witness :
    "c" ∈ (filter_tilespecs_z
      [{ pId := "a", qId := "b" }, { pId := "c", qId := "d" },
       { pId := "d", qId := "e" }]).1 ∧
    "e" ∈ (filter_tilespecs_z
      [{ pId := "a", qId := "b" }, { pId := "c", qId := "d" },
       { pId := "d", qId := "e" }]).1 ∧
    matchReach
      [{ pId := "a", qId := "b" }, { pId := "c", qId := "d" },
       { pId := "d", qId := "e" }] "c" "e" :=
  ⟨by decide, by decide,
   (claim_C6
     [{ pId := "a", qId := "b" }, { pId := "c", qId := "d" },
      { pId := "d", qId := "e" }]).1 "c" (by decide) "e" (by decide)⟩

end ScriptedRenderPipeline
